import Mathlib

/-!
Verification of the segmentation / pipeline-orchestration core of
`chimerascan/deprecated/align_segments.py`.

Python-2 integers are embedded as `Int` (the script runs on Python 2, where
`/` on ints is floor division, embedded here as `Int.fdiv`).  The effectful
parts (process spawning and awaiting) are embedded as pure functions that
return the command-line argument lists constructed for each stage together
with a trace of spawn/wait events; the exit statuses of the three external
stage processes are an explicit environment parameter (`StageExits`).
-/

/-- Modelled from the spec: `MIN_SEGMENT_LENGTH` is imported by
`align_segments.py` from `chimerascan.lib.config`, which is not part of the
sources; the spec describes it only as "a fixed minimum below which alignment
sensitivity is considered unreliable".  A concrete positive value is used so
that the development stays executable; no theorem below depends on the
particular value. -/
def MIN_SEGMENT_LENGTH : Int := 20

/-- Modelled from the spec: `JOB_SUCCESS` is imported from
`chimerascan.lib.config` (not in the sources); the spec calls it the success
code returned by the driver. -/
def JOB_SUCCESS : Int := 0

/-- A fastq input file as the validation code observes it: its path, whether
`os.path.isfile` holds, and the read length that `get_read_length` (an
external probing collaborator, not in the sources) would report for it. -/
structure FastqFile where
  path : String
  isFile : Bool
  read_length : Int
  deriving DecidableEq, Repr

/-- Outcome of `check_fastq_files`: an `AlignError` exception with its
message, the bare `return False` taken on inconsistent read lengths (note:
not an exception), an uncaught `IndexError` (empty input list), or a normal
return of the common read length. -/
inductive CheckOutcome where
  | error (msg : String)
  | returnedFalse
  | crash
  | ok (rlen : Int)
  deriving DecidableEq, Repr

/-- Message of the `AlignError` raised for a missing input file
(`"mate '%d' fastq file '%s' is not valid"`). -/
def missingFileMsg (mate : Nat) (path : String) : String :=
  "mate '" ++ toString mate ++ "' fastq file '" ++ path ++ "' is not valid"

/-- Message of the `AlignError` raised for a too-short segment length
(`"segment length (%d) too small (min is %d)"`). -/
def segmentTooShortMsg (segment_length : Int) : String :=
  "segment length (" ++ toString segment_length ++ ") too small (min is " ++
    toString MIN_SEGMENT_LENGTH ++ ")"

/-- Message of the `AlignError` raised for a too-long segment length
(`"segment length (%d) longer than trimmed read length (%d)"`). -/
def segmentTooLongMsg (segment_length trimmed_rlen : Int) : String :=
  "segment length (" ++ toString segment_length ++
    ") longer than trimmed read length (" ++ toString trimmed_rlen ++ ")"

/-- The file-existence / read-length-probing loop at the top of
`check_fastq_files`: raises (returns `.error`) at the first missing file,
otherwise collects the probed read lengths in order. -/
def collectReadLengths (mate : Nat) (files : List FastqFile) :
    Except String (List Int) :=
  match files with
  | [] => .ok []
  | f :: rest =>
    if f.isFile then
      match collectReadLengths (mate + 1) rest with
      | .ok ls => .ok (f.read_length :: ls)
      | .error e => .error e
    else
      .error (missingFileMsg mate f.path)

/-- Embedding of `check_fastq_files(fastq_files, segment_length, trim5,
trim3)` (align_segments.py lines 113-139).  On inconsistent read lengths the
Python code logs an error and `return False` — it does not raise. -/
def check_fastq_files (files : List FastqFile)
    (segment_length trim5 trim3 : Int) : CheckOutcome :=
  match collectReadLengths 0 files with
  | .error msg => .error msg
  | .ok read_lengths =>
    if 1 < read_lengths.dedup.length then
      .returnedFalse
    else
      match read_lengths with
      | [] => .crash
      | rlen :: _ =>
        let trimmed_rlen := rlen - trim5 - trim3
        if segment_length < MIN_SEGMENT_LENGTH then
          .error (segmentTooShortMsg segment_length)
        else if segment_length > trimmed_rlen then
          .error (segmentTooLongMsg segment_length trimmed_rlen)
        else
          .ok rlen

/-- The `for x in xrange(1, num_segments-1)` loop of
`determine_read_segments`, run for `k` iterations from window start `start`:
returns the appended full-length windows and the final value of `start`. -/
def segmentLoop (segment_length start : Int) : Nat → List (Int × Int) × Int
  | 0 => ([], start)
  | Nat.succ k =>
    let rest := segmentLoop segment_length (start + segment_length) k
    ((start, start + segment_length) :: rest.1, rest.2)

/-- Embedding of `determine_read_segments(read_length, segment_length,
segment_trim, trim5, trim3)` (align_segments.py lines 37-55).  Python 2
floor division `/` is `Int.fdiv`; the loop `xrange(1, num_segments-1)` runs
`max(0, num_segments-2)` times, i.e. `(num_segments - 2).toNat` times.
(Python raises `ZeroDivisionError` when `segment_length = 0`; every claim
constrains `segment_length ≥ 1`, where the embedding agrees.) -/
def determine_read_segments (read_length segment_length : Int)
    (segment_trim : Bool) (trim5 trim3 : Int) : List (Int × Int) :=
  let trimmed_rlen := read_length - trim5 - trim3
  let num_segments := trimmed_rlen.fdiv segment_length
  let read_end :=
    if segment_trim then segment_length * num_segments else read_length - trim3
  if num_segments = 1 then
    [(trim5, read_end)]
  else
    let start := trim5 + segment_length
    let p := segmentLoop segment_length start (num_segments - 2).toNat
    let segments := (trim5, start) :: p.1
    if p.2 < read_end then segments ++ [(p.2, read_end)] else segments

/-- The three external pipeline stage processes spawned by
`align_segments`: `segment_reads.py`, bowtie, and
`join_segmented_alignments.py`. -/
inductive Stage where
  | segmenter
  | aligner
  | merger
  deriving DecidableEq, Repr

/-- One observable lifecycle action of `align_segments`: `subprocess.Popen`
of a stage, or `wait()` on a stage (which collects that stage's exit
status). -/
inductive Event where
  | spawn (s : Stage)
  | wait (s : Stage) (exit_code : Int)
  deriving DecidableEq, Repr

/-- Environment of one pipeline run: the exit statuses the three external
stage processes terminate with. -/
structure StageExits where
  seg_exit : Int
  aln_exit : Int
  out_exit : Int
  deriving DecidableEq, Repr

/-- Result of one `align_segments` run: the argument lists built for the
three stages and the ordered trace of spawn/wait events. -/
structure AlignSegmentsRun where
  seg_args : List String
  aln_args : List String
  merge_args : List String
  events : List Event
  deriving DecidableEq, Repr

/-- Stands for the runtime value of Python's `sys.executable`. -/
def sys_executable : String := "python"

/-- Stands for `os.path.join(os.path.dirname(__file__), "segment_reads.py")`. -/
def segment_reads_script : String := "segment_reads.py"

/-- Stands for `os.path.join(os.path.dirname(__file__),
"join_segmented_alignments.py")`. -/
def join_segments_script : String := "join_segmented_alignments.py"

/-- The `','.join(map(str, ...))` serialization of a list of ints. -/
def commaJoin (l : List Int) : String :=
  String.intercalate "," (l.map toString)

/-- Embedding of `align_segments` (align_segments.py lines 57-111): builds
the three stages' argument lists exactly as the Python code does, spawns
segmenter, aligner and merger in that order, then waits on the merger, the
aligner and the segmenter in that order.  The `wait` events record the
collected exit statuses.  (`max()` on an empty sequence raises in Python;
the `.getD 0` default is only reached for an empty segment list, which
`determine_read_segments` never produces.) -/
def align_segments (fastq_files : List String) (output_bam_file : String)
    (segments : List (Int × Int)) (fastq_format : String)
    (multihits mismatches num_threads : Int)
    (bowtie_bin bowtie_index bowtie_mode : String) (best_strata : Bool)
    (exits : StageExits) : AlignSegmentsRun :=
  let seg_starts_str := commaJoin (segments.map Prod.fst)
  let seg_ends_str := commaJoin (segments.map Prod.snd)
  let seg_args :=
    [sys_executable, segment_reads_script, seg_starts_str, seg_ends_str] ++
      fastq_files
  let max_segment_length := ((segments.map fun s => s.2 - s.1).max?).getD 0
  let aln_args :=
    [bowtie_bin, "-q", "-S", "-p", toString num_threads, "--tryhard",
      "--" ++ fastq_format, "-k", toString multihits, "-m",
      toString multihits, bowtie_mode, toString mismatches] ++
    (if bowtie_mode = "-n" then ["-l", toString max_segment_length] else []) ++
    (if best_strata then ["--best", "--strata"] else []) ++
    [bowtie_index, "-"]
  let merge_args :=
    [sys_executable, join_segments_script] ++
    (if fastq_files.length = 1 then ["--sr"] else []) ++
    ["-", fastq_files.headD "", output_bam_file]
  { seg_args := seg_args
    aln_args := aln_args
    merge_args := merge_args
    events := [.spawn .segmenter, .spawn .aligner, .spawn .merger,
               .wait .merger exits.out_exit, .wait .aligner exits.aln_exit,
               .wait .segmenter exits.seg_exit] }

/-- Result of the top-level `align`: either an exception (`AlignError` or
`IndexError`) propagated out of it, or a normal return with a return code. -/
inductive AlignResult where
  | raised (msg : String)
  | returned (code : Int)
  deriving DecidableEq, Repr

/-- One run of the top-level `align`: its result, plus the pipeline run when
the three stages were spawned (`none` means `align` ended before any stage
process was spawned). -/
structure AlignRun where
  result : AlignResult
  run : Option AlignSegmentsRun
  deriving DecidableEq, Repr

/-- Embedding of `align` (align_segments.py lines 141-168).  Note that the
Python code assigns `read_length = check_fastq_files(...)` without
inspecting the value: when `check_fastq_files` returns `False` (inconsistent
read lengths), `False` flows into the arithmetic of
`determine_read_segments` as the integer `0` and the pipeline is still
spawned; and the return value is `JOB_SUCCESS` unconditionally once
`align_segments` returns — the stage exit statuses are never examined. -/
def align (files : List FastqFile) (fastq_format : String)
    (bowtie_index output_bam_file bowtie_bin : String)
    (num_processors segment_length : Int) (segment_trim : Bool)
    (trim5 trim3 multihits mismatches : Int) (bowtie_mode : String)
    (best_strata : Bool) (exits : StageExits) : AlignRun :=
  match check_fastq_files files segment_length trim5 trim3 with
  | .error msg => { result := .raised msg, run := none }
  | .crash => { result := .raised "IndexError", run := none }
  | .returnedFalse =>
    let read_length : Int := 0
    let segments :=
      determine_read_segments read_length segment_length segment_trim trim5 trim3
    let r := align_segments (files.map FastqFile.path) output_bam_file
      segments fastq_format multihits mismatches num_processors bowtie_bin
      bowtie_index bowtie_mode best_strata exits
    { result := .returned JOB_SUCCESS, run := some r }
  | .ok rlen =>
    let segments :=
      determine_read_segments rlen segment_length segment_trim trim5 trim3
    let r := align_segments (files.map FastqFile.path) output_bam_file
      segments fastq_format multihits mismatches num_processors bowtie_bin
      bowtie_index bowtie_mode best_strata exits
    { result := .returned JOB_SUCCESS, run := some r }

/-! ### Helper lemmas about the segment-window loop -/

/-- After `k` loop iterations the running window start has advanced by
`k` segment lengths. -/
lemma segmentLoop_snd (seg : Int) :
    ∀ (k : Nat) (s : Int), (segmentLoop seg s k).2 = s + seg * k := by
  intro k
  induction k with
  | zero => intro s; simp [segmentLoop]
  | succ k ih =>
    intro s
    have h := ih (s + seg)
    simp only [segmentLoop, h]
    push_cast
    ring

/-- Every window the loop appends starts no earlier than the initial start,
has width exactly `seg`, and ends no later than the final start. -/
lemma segmentLoop_mem (seg : Int) (hseg : 0 ≤ seg) :
    ∀ (k : Nat) (s : Int), ∀ p ∈ (segmentLoop seg s k).1,
      s ≤ p.1 ∧ p.2 = p.1 + seg ∧ p.2 ≤ (segmentLoop seg s k).2 := by
  intro k
  induction k with
  | zero => intro s p hp; simp [segmentLoop] at hp
  | succ k ih =>
    intro s p hp
    have hsnd := segmentLoop_snd seg (k + 1) s
    have hsnd' := segmentLoop_snd seg k (s + seg)
    have hmul : 0 ≤ seg * (k : Int) := mul_nonneg hseg (by positivity)
    simp only [segmentLoop, List.mem_cons] at hp
    rcases hp with hp | hp
    · subst hp
      refine ⟨le_refl s, rfl, ?_⟩
      simp only [segmentLoop, hsnd']
      nlinarith
    · obtain ⟨h1, h2, h3⟩ := ih (s + seg) p hp
      refine ⟨by linarith, h2, ?_⟩
      simp only [segmentLoop]
      exact h3

/-- The union of the loop's half-open windows is exactly the half-open
interval from the initial start to the final start. -/
lemma segmentLoop_cover (seg : Int) (hseg : 0 ≤ seg) :
    ∀ (k : Nat) (s x : Int),
      (∃ p ∈ (segmentLoop seg s k).1, p.1 ≤ x ∧ x < p.2) ↔
        (s ≤ x ∧ x < s + seg * k) := by
  intro k
  induction k with
  | zero => intro s x; simp [segmentLoop]
  | succ k ih =>
    intro s x
    have hmul : 0 ≤ seg * (k : Int) := mul_nonneg hseg (by positivity)
    have hcast : seg * ((k + 1 : Nat) : Int) = seg * (k : Int) + seg := by
      push_cast
      ring
    simp only [segmentLoop, List.mem_cons, exists_eq_or_imp]
    rw [ih (s + seg) x, hcast]
    constructor
    · rintro (⟨h1, h2⟩ | ⟨h1, h2⟩) <;> constructor <;> linarith
    · rintro ⟨h1, h2⟩
      by_cases hx : x < s + seg
      · exact Or.inl ⟨h1, hx⟩
      · exact Or.inr ⟨by linarith, by linarith⟩

/-- The loop's windows, prefixed by any window ending where the loop starts,
form a contiguous chain (each window's end is the next window's start). -/
lemma segmentLoop_chain (seg : Int) :
    ∀ (k : Nat) (s : Int) (p : Int × Int), p.2 = s →
      List.Chain' (fun a b : Int × Int => a.2 = b.1)
        (p :: (segmentLoop seg s k).1) := by
  intro k
  induction k with
  | zero => intro s p _; simp [segmentLoop]
  | succ k ih =>
    intro s p hp
    simp only [segmentLoop]
    exact List.Chain'.cons hp (ih (s + seg) (s, s + seg) rfl)

/-- The last window of the loop's output (prefixed by a window ending at the
loop's start) ends exactly at the loop's final start value. -/
lemma segmentLoop_getLast (seg : Int) :
    ∀ (k : Nat) (s : Int) (p : Int × Int), p.2 = s →
      ∃ q, (p :: (segmentLoop seg s k).1).getLast? = some q ∧
        q.2 = (segmentLoop seg s k).2 := by
  intro k
  induction k with
  | zero => intro s p hp; exact ⟨p, rfl, hp⟩
  | succ k ih =>
    intro s p hp
    obtain ⟨q, hq1, hq2⟩ := ih (s + seg) (s, s + seg) rfl
    refine ⟨q, ?_, ?_⟩
    · simp only [segmentLoop]
      rw [List.getLast?_cons_cons]
      exact hq1
    · simp only [segmentLoop]
      exact hq2

/-- A contiguous chain of windows, each with nonnegative width, is pairwise
left-to-right ordered and non-overlapping. -/
lemma pairwise_of_chain'_valid :
    ∀ l : List (Int × Int),
      List.Chain' (fun a b : Int × Int => a.2 = b.1) l →
      (∀ p ∈ l, p.1 ≤ p.2) →
      List.Pairwise (fun a b : Int × Int => a.2 ≤ b.1) l := by
  intro l
  induction l with
  | nil => intro _ _; exact List.Pairwise.nil
  | cons a l ih =>
    intro hc hv
    rw [List.chain'_cons'] at hc
    obtain ⟨hhead, hc'⟩ := hc
    have hpl := ih hc' (fun p hp => hv p (List.mem_cons_of_mem a hp))
    refine List.Pairwise.cons ?_ hpl
    intro b hb
    match l, hb with
    | b0 :: l', hb =>
      have hab0 : a.2 = b0.1 := hhead b0 rfl
      rcases List.mem_cons.mp hb with hb | hb
      · subst hb; exact le_of_eq hab0
      · have := (List.pairwise_cons.mp hpl).1 b hb
        have hvb0 : b0.1 ≤ b0.2 := hv b0 (by simp)
        linarith [hab0 ▸ le_trans hvb0 this]

/-- Floor-division bracketing used throughout: when `1 ≤ seg ≤ t`, the
quotient `t.fdiv seg` is at least 1 and `seg * (t.fdiv seg)` brackets `t`
within one segment length. -/
lemma fdiv_facts (t seg : Int) (hseg : 1 ≤ seg) (ht : seg ≤ t) :
    1 ≤ t.fdiv seg ∧ seg * t.fdiv seg ≤ t ∧ t < seg * t.fdiv seg + seg := by
  have h0 : (0 : Int) < seg := by linarith
  have hfd : t.fdiv seg = t / seg := Int.fdiv_eq_ediv t (by linarith)
  have hd := Int.ediv_add_emod t seg
  have hr0 := Int.emod_nonneg t (ne_of_gt h0)
  have hrlt := Int.emod_lt_of_pos t h0
  rw [hfd]
  exact ⟨(Int.le_ediv_iff_mul_le h0).mpr (by linarith), by linarith, by linarith⟩

/-- Normal form of `determine_read_segments` when at least two segments fit:
the head window, the loop's windows, and conditionally the trailing window. -/
lemma determine_read_segments_eq_core (rl seg t5 t3 : Int) (st : Bool)
    (hn2 : 2 ≤ (rl - t5 - t3).fdiv seg) :
    determine_read_segments rl seg st t5 t3 =
      (if (segmentLoop seg (t5 + seg) ((rl - t5 - t3).fdiv seg - 2).toNat).2 <
          (if st then seg * ((rl - t5 - t3).fdiv seg) else rl - t3) then
        ((t5, t5 + seg) ::
          (segmentLoop seg (t5 + seg) ((rl - t5 - t3).fdiv seg - 2).toNat).1) ++
          [((segmentLoop seg (t5 + seg) ((rl - t5 - t3).fdiv seg - 2).toNat).2,
            if st then seg * ((rl - t5 - t3).fdiv seg) else rl - t3)]
      else
        (t5, t5 + seg) ::
          (segmentLoop seg (t5 + seg) ((rl - t5 - t3).fdiv seg - 2).toNat).1) := by
  simp only [determine_read_segments]
  rw [if_neg]
  intro h
  rw [h] at hn2
  norm_num at hn2

/-- C4 (amended): for `0 ≤ trim5`, `0 ≤ trim3`, `trim5 + trim3 <
read_length`, `MIN_SEGMENT_LENGTH ≤ segment_length ≤ read_length - trim5 -
trim3`, and — the amendment — excluding the degenerate case where
`segment_trim` is true, exactly one segment fits, and `trim5 ≥
segment_length`, every pair `(start, end)` returned by
`determine_read_segments` satisfies `0 ≤ start < end ≤ read_length`. -/
theorem determine_read_segments_bounds (rl seg t5 t3 : Int) (st : Bool)
    (h5 : 0 ≤ t5) (h3 : 0 ≤ t3) (htr : t5 + t3 < rl)
    (hmin : MIN_SEGMENT_LENGTH ≤ seg) (hmax : seg ≤ rl - t5 - t3)
    (hamend : st = true → (rl - t5 - t3).fdiv seg = 1 → t5 < seg) :
    ∀ p ∈ determine_read_segments rl seg st t5 t3,
      0 ≤ p.1 ∧ p.1 < p.2 ∧ p.2 ≤ rl := by
  have hseg : (1 : Int) ≤ seg := by
    have h20 : (20 : Int) ≤ seg := hmin
    linarith
  have hseg0 : (0 : Int) ≤ seg := by linarith
  obtain ⟨hn1, hA, hB⟩ := fdiv_facts (rl - t5 - t3) seg hseg hmax
  rcases eq_or_lt_of_le hn1 with h1 | h2
  · -- exactly one segment fits
    have heq : determine_read_segments rl seg st t5 t3 =
        [(t5, if st then seg * ((rl - t5 - t3).fdiv seg) else rl - t3)] := by
      simp only [determine_read_segments]
      rw [if_pos h1.symm]
    rw [heq]
    intro p hp
    rw [List.mem_singleton] at hp
    subst hp
    cases st with
    | false =>
      simp only [Bool.false_eq_true, if_false]
      exact ⟨h5, by linarith, by linarith⟩
    | true =>
      simp only [if_true]
      rw [← h1, mul_one]
      have ht5 : t5 < seg := hamend rfl h1.symm
      exact ⟨h5, ht5, by linarith⟩
  · -- at least two segments fit
    have hn2 : 2 ≤ (rl - t5 - t3).fdiv seg := by omega
    have hk : (((rl - t5 - t3).fdiv seg - 2).toNat : Int) =
        (rl - t5 - t3).fdiv seg - 2 := Int.toNat_of_nonneg (by omega)
    have hsnd : (segmentLoop seg (t5 + seg)
        ((rl - t5 - t3).fdiv seg - 2).toNat).2 =
        t5 + seg * ((rl - t5 - t3).fdiv seg - 1) := by
      rw [segmentLoop_snd, hk]
      ring
    have e10 : seg * ((rl - t5 - t3).fdiv seg - 1) + seg =
        seg * ((rl - t5 - t3).fdiv seg) := by ring
    have hm1 : 0 ≤ seg * ((rl - t5 - t3).fdiv seg - 1) :=
      mul_nonneg hseg0 (by omega)
    rw [determine_read_segments_eq_core rl seg t5 t3 st hn2]
    have hcore : ∀ p ∈ (t5, t5 + seg) ::
        (segmentLoop seg (t5 + seg) ((rl - t5 - t3).fdiv seg - 2).toNat).1,
        0 ≤ p.1 ∧ p.1 < p.2 ∧ p.2 ≤ rl := by
      intro p hp
      rcases List.mem_cons.mp hp with hp | hp
      · subst hp
        refine ⟨h5, ?_, ?_⟩
        · show t5 < t5 + seg
          linarith
        · show t5 + seg ≤ rl
          linarith
      · obtain ⟨hp1, hp2, hp3⟩ := segmentLoop_mem seg hseg0 _ (t5 + seg) p hp
        rw [hsnd] at hp3
        exact ⟨by linarith, by linarith, by linarith⟩
    by_cases hlt : (segmentLoop seg (t5 + seg)
        ((rl - t5 - t3).fdiv seg - 2).toNat).2 <
        (if st then seg * ((rl - t5 - t3).fdiv seg) else rl - t3)
    · rw [if_pos hlt]
      intro p hp
      rcases List.mem_append.mp hp with hp | hp
      · exact hcore p hp
      · rw [List.mem_singleton] at hp
        subst hp
        refine ⟨?_, hlt, ?_⟩
        · show 0 ≤ (segmentLoop seg (t5 + seg)
            ((rl - t5 - t3).fdiv seg - 2).toNat).2
          rw [hsnd]
          linarith
        · show (if st then seg * ((rl - t5 - t3).fdiv seg) else rl - t3) ≤ rl
          cases st with
          | false =>
            simp only [Bool.false_eq_true, if_false]
            linarith
          | true =>
            simp only [if_true]
            linarith
    · rw [if_neg hlt]
      exact hcore

/-- C1 (amended): for `0 ≤ trim5`, `0 ≤ trim3`, `trim5 + trim3 <
read_length`, `MIN_SEGMENT_LENGTH ≤ segment_length ≤ read_length - trim5 -
trim3`, and — the amendment — excluding the case where `segment_trim` is
true, at least two segments fit, and `trim5 > segment_length`, the list
returned by `determine_read_segments` is contiguous (each window's end is
the next window's start), pairwise ordered left-to-right and
non-overlapping, and the union of its half-open windows is exactly
`[trim5, read_end)`, where `read_end = segment_length * ((read_length -
trim5 - trim3) fdiv segment_length)` in trim mode and `read_length - trim3`
otherwise. -/
theorem determine_read_segments_cover (rl seg t5 t3 : Int) (st : Bool)
    (h5 : 0 ≤ t5) (h3 : 0 ≤ t3) (htr : t5 + t3 < rl)
    (hmin : MIN_SEGMENT_LENGTH ≤ seg) (hmax : seg ≤ rl - t5 - t3)
    (hamend : st = true → 2 ≤ (rl - t5 - t3).fdiv seg → t5 ≤ seg) :
    List.Chain' (fun a b : Int × Int => a.2 = b.1)
      (determine_read_segments rl seg st t5 t3) ∧
    List.Pairwise (fun a b : Int × Int => a.2 ≤ b.1)
      (determine_read_segments rl seg st t5 t3) ∧
    ∀ x : Int,
      (∃ p ∈ determine_read_segments rl seg st t5 t3, p.1 ≤ x ∧ x < p.2) ↔
        (t5 ≤ x ∧
          x < (if st then seg * ((rl - t5 - t3).fdiv seg) else rl - t3)) := by
  have hseg : (1 : Int) ≤ seg := by
    have h20 : (20 : Int) ≤ seg := hmin
    linarith
  have hseg0 : (0 : Int) ≤ seg := by linarith
  obtain ⟨hn1, hA, hB⟩ := fdiv_facts (rl - t5 - t3) seg hseg hmax
  rcases eq_or_lt_of_le hn1 with h1 | h2
  · -- exactly one segment: the singleton window is itself the claimed span
    have heq : determine_read_segments rl seg st t5 t3 =
        [(t5, if st then seg * ((rl - t5 - t3).fdiv seg) else rl - t3)] := by
      simp only [determine_read_segments]
      rw [if_pos h1.symm]
    rw [heq]
    refine ⟨List.chain'_singleton _, List.pairwise_singleton _ _, ?_⟩
    intro x
    simp
  · -- at least two segments
    have hn2 : 2 ≤ (rl - t5 - t3).fdiv seg := by omega
    have hamend' : st = true → t5 ≤ seg := fun h => hamend h hn2
    have hk : (((rl - t5 - t3).fdiv seg - 2).toNat : Int) =
        (rl - t5 - t3).fdiv seg - 2 := Int.toNat_of_nonneg (by omega)
    have hsnd : (segmentLoop seg (t5 + seg)
        ((rl - t5 - t3).fdiv seg - 2).toNat).2 =
        t5 + seg * ((rl - t5 - t3).fdiv seg - 1) := by
      rw [segmentLoop_snd, hk]
      ring
    have e10 : seg * ((rl - t5 - t3).fdiv seg - 1) + seg =
        seg * ((rl - t5 - t3).fdiv seg) := by ring
    have hm1 : 0 ≤ seg * ((rl - t5 - t3).fdiv seg - 1) :=
      mul_nonneg hseg0 (by omega)
    have hsegle : seg ≤ seg * ((rl - t5 - t3).fdiv seg - 1) := by
      have hle := mul_le_mul_of_nonneg_left
        (show (1 : Int) ≤ (rl - t5 - t3).fdiv seg - 1 by omega) hseg0
      rwa [mul_one] at hle
    have hcov := segmentLoop_cover seg hseg0
      ((rl - t5 - t3).fdiv seg - 2).toNat (t5 + seg)
    have hloopend : t5 + seg +
        seg * ((((rl - t5 - t3).fdiv seg - 2).toNat : Nat) : Int) =
        t5 + seg * ((rl - t5 - t3).fdiv seg - 1) := by
      rw [hk]
      ring
    have hchain_core : List.Chain' (fun a b : Int × Int => a.2 = b.1)
        ((t5, t5 + seg) ::
          (segmentLoop seg (t5 + seg) ((rl - t5 - t3).fdiv seg - 2).toNat).1) :=
      segmentLoop_chain seg _ (t5 + seg) (t5, t5 + seg) rfl
    have hvalid_core : ∀ p ∈ (t5, t5 + seg) ::
        (segmentLoop seg (t5 + seg) ((rl - t5 - t3).fdiv seg - 2).toNat).1,
        p.1 ≤ p.2 := by
      intro p hp
      rcases List.mem_cons.mp hp with hp | hp
      · subst hp
        show t5 ≤ t5 + seg
        linarith
      · obtain ⟨hp1, hp2, hp3⟩ := segmentLoop_mem seg hseg0 _ (t5 + seg) p hp
        linarith
    have hcover_core : ∀ x : Int,
        (∃ p ∈ (t5, t5 + seg) ::
          (segmentLoop seg (t5 + seg) ((rl - t5 - t3).fdiv seg - 2).toNat).1,
          p.1 ≤ x ∧ x < p.2) ↔
        (t5 ≤ x ∧ x < t5 + seg * ((rl - t5 - t3).fdiv seg - 1)) := by
      intro x
      constructor
      · rintro ⟨p, hp, hx1, hx2⟩
        rcases List.mem_cons.mp hp with hp | hp
        · subst hp
          have hx1' : t5 ≤ x := hx1
          have hx2' : x < t5 + seg := hx2
          constructor <;> linarith
        · have hb := (hcov x).mp ⟨p, hp, hx1, hx2⟩
          rw [hloopend] at hb
          exact ⟨by linarith [hb.1], hb.2⟩
      · rintro ⟨hx1, hx2⟩
        by_cases hxc : x < t5 + seg
        · exact ⟨(t5, t5 + seg), List.mem_cons_self _ _, hx1, hxc⟩
        · have hb : t5 + seg ≤ x ∧ x < t5 + seg +
              seg * ((((rl - t5 - t3).fdiv seg - 2).toNat : Nat) : Int) := by
            rw [hloopend]
            exact ⟨by linarith, hx2⟩
          obtain ⟨p, hp, hx⟩ := (hcov x).mpr hb
          exact ⟨p, List.mem_cons_of_mem _ hp, hx⟩
    rw [determine_read_segments_eq_core rl seg t5 t3 st hn2]
    by_cases hlt : (segmentLoop seg (t5 + seg)
        ((rl - t5 - t3).fdiv seg - 2).toNat).2 <
        (if st then seg * ((rl - t5 - t3).fdiv seg) else rl - t3)
    · -- the trailing window is appended
      rw [if_pos hlt]
      have hS : t5 + seg * ((rl - t5 - t3).fdiv seg - 1) <
          (if st then seg * ((rl - t5 - t3).fdiv seg) else rl - t3) := by
        rw [← hsnd]
        exact hlt
      have hvalid : ∀ p ∈ ((t5, t5 + seg) ::
          (segmentLoop seg (t5 + seg) ((rl - t5 - t3).fdiv seg - 2).toNat).1) ++
          [((segmentLoop seg (t5 + seg) ((rl - t5 - t3).fdiv seg - 2).toNat).2,
            if st then seg * ((rl - t5 - t3).fdiv seg) else rl - t3)],
          p.1 ≤ p.2 := by
        intro p hp
        rcases List.mem_append.mp hp with hp | hp
        · exact hvalid_core p hp
        · rw [List.mem_singleton] at hp
          subst hp
          exact le_of_lt hlt
      have hchain : List.Chain' (fun a b : Int × Int => a.2 = b.1)
          (((t5, t5 + seg) ::
            (segmentLoop seg (t5 + seg) ((rl - t5 - t3).fdiv seg - 2).toNat).1) ++
          [((segmentLoop seg (t5 + seg) ((rl - t5 - t3).fdiv seg - 2).toNat).2,
            if st then seg * ((rl - t5 - t3).fdiv seg) else rl - t3)]) := by
        rw [List.chain'_append]
        refine ⟨hchain_core, List.chain'_singleton _, ?_⟩
        intro a ha b hb
        obtain ⟨q, hq1, hq2⟩ := segmentLoop_getLast seg
          ((rl - t5 - t3).fdiv seg - 2).toNat (t5 + seg) (t5, t5 + seg) rfl
        rw [hq1, Option.mem_some_iff] at ha
        subst ha
        rw [List.head?_cons, Option.mem_some_iff] at hb
        subst hb
        exact hq2
      refine ⟨hchain, pairwise_of_chain'_valid _ hchain hvalid, ?_⟩
      intro x
      constructor
      · rintro ⟨p, hp, hx1, hx2⟩
        rcases List.mem_append.mp hp with hp | hp
        · have hb := (hcover_core x).mp ⟨p, hp, hx1, hx2⟩
          exact ⟨hb.1, by linarith [hb.2]⟩
        · rw [List.mem_singleton] at hp
          subst hp
          have hx1' : (segmentLoop seg (t5 + seg)
              ((rl - t5 - t3).fdiv seg - 2).toNat).2 ≤ x := hx1
          rw [hsnd] at hx1'
          exact ⟨by linarith, hx2⟩
      · rintro ⟨hx1, hx2⟩
        by_cases hxc : x < t5 + seg * ((rl - t5 - t3).fdiv seg - 1)
        · obtain ⟨p, hp, hx⟩ := (hcover_core x).mpr ⟨hx1, hxc⟩
          exact ⟨p, List.mem_append.mpr (Or.inl hp), hx⟩
        · refine ⟨_, List.mem_append.mpr (Or.inr (List.mem_singleton_self _)),
            ?_, hx2⟩
          show (segmentLoop seg (t5 + seg)
            ((rl - t5 - t3).fdiv seg - 2).toNat).2 ≤ x
          rw [hsnd]
          linarith
    · -- no trailing window: only possible in trim mode with trim5 = seg
      rw [if_neg hlt]
      have hlt' := not_lt.mp hlt
      rw [hsnd] at hlt'
      refine ⟨hchain_core,
        pairwise_of_chain'_valid _ hchain_core hvalid_core, ?_⟩
      intro x
      rw [hcover_core x]
      cases st with
      | false =>
        exfalso
        simp only [Bool.false_eq_true, if_false] at hlt'
        linarith
      | true =>
        simp only [if_true] at hlt' ⊢
        have ht5 : seg ≤ t5 := by linarith
        have ht5' : t5 ≤ seg := hamend' rfl
        constructor <;> rintro ⟨hx1, hx2⟩ <;> exact ⟨hx1, by linarith⟩

/-- C1 counterexample: at `read_length = 430`, `segment_length = 100`,
`segment_trim = true`, `trim5 = 130`, `trim3 = 0` — all inside the claim's
stated domain — the code returns `[(130, 230), (230, 330)]`, whose union
`[130, 330)` is strictly larger than the claimed
`[trim5, segment_length * num_segments) = [130, 300)` (witness point
`x = 310`). -/
theorem determine_read_segments_cover_cex :
    ((0 : Int) ≤ 130 ∧ (0 : Int) ≤ 0 ∧ (130 : Int) + 0 < 430 ∧
      MIN_SEGMENT_LENGTH ≤ 100 ∧ (100 : Int) ≤ 430 - 130 - 0) ∧
    determine_read_segments 430 100 true 130 0 = [(130, 230), (230, 330)] ∧
    ¬ (∀ x : Int,
      (∃ p ∈ determine_read_segments 430 100 true 130 0, p.1 ≤ x ∧ x < p.2) ↔
        (130 ≤ x ∧ x < 100 * ((430 - 130 - 0 : Int).fdiv 100))) := by
  refine ⟨by decide, by decide, ?_⟩
  intro h
  have h310 := (h 310).mp ⟨(230, 330), by decide, by decide⟩
  have hre : (100 : Int) * ((430 - 130 - 0 : Int).fdiv 100) = 300 := by decide
  rw [hre] at h310
  exact absurd h310.2 (by decide)

/-- C1 witness: the amended coverage theorem applied at
`read_length = 76`, `segment_length = 25`, `segment_trim = true`,
`trim5 = trim3 = 0`. -/
theorem determine_read_segments_cover_witness :
    ((0 : Int) ≤ 0 ∧ (0 : Int) ≤ 0 ∧ (0 : Int) + 0 < 76 ∧
      MIN_SEGMENT_LENGTH ≤ 25 ∧ (25 : Int) ≤ 76 - 0 - 0) ∧
    (List.Chain' (fun a b : Int × Int => a.2 = b.1)
      (determine_read_segments 76 25 true 0 0) ∧
     List.Pairwise (fun a b : Int × Int => a.2 ≤ b.1)
      (determine_read_segments 76 25 true 0 0) ∧
     ∀ x : Int,
      (∃ p ∈ determine_read_segments 76 25 true 0 0, p.1 ≤ x ∧ x < p.2) ↔
        (0 ≤ x ∧
          x < (if true then 25 * ((76 - 0 - 0 : Int).fdiv 25) else 76 - 0))) :=
  ⟨by decide,
   determine_read_segments_cover 76 25 0 0 true (by decide) (by decide)
     (by decide) (by decide) (by decide) (fun _ _ => by decide)⟩

/-- C4 counterexample: at `read_length = 200`, `segment_length = 100`,
`segment_trim = true`, `trim5 = 100`, `trim3 = 0` — inside the claim's
stated domain — the code returns the degenerate boundary `(100, 100)` with
`start = end`, violating `start < end`. -/
theorem determine_read_segments_bounds_cex :
    ((0 : Int) ≤ 100 ∧ (0 : Int) ≤ 0 ∧ (100 : Int) + 0 < 200 ∧
      MIN_SEGMENT_LENGTH ≤ 100 ∧ (100 : Int) ≤ 200 - 100 - 0) ∧
    determine_read_segments 200 100 true 100 0 = [(100, 100)] ∧
    ¬ (∀ p ∈ determine_read_segments 200 100 true 100 0,
        0 ≤ p.1 ∧ p.1 < p.2 ∧ p.2 ≤ 200) := by
  decide

/-- C4 witness: the amended bounds theorem applied at `read_length = 50`,
`segment_length = 25`, `segment_trim = true`, `trim5 = trim3 = 0`. -/
theorem determine_read_segments_bounds_witness :
    ((0 : Int) ≤ 0 ∧ (0 : Int) ≤ 0 ∧ (0 : Int) + 0 < 50 ∧
      MIN_SEGMENT_LENGTH ≤ 25 ∧ (25 : Int) ≤ 50 - 0 - 0) ∧
    ∀ p ∈ determine_read_segments 50 25 true 0 0,
      0 ≤ p.1 ∧ p.1 < p.2 ∧ p.2 ≤ 50 :=
  ⟨by decide,
   determine_read_segments_bounds 50 25 0 0 true (by decide) (by decide)
     (by decide) (by decide) (by decide) (fun _ _ => by decide)⟩

/-- C6: `determine_read_segments(76, 25, False, 0, 0)` returns exactly
`[(0, 25), (25, 50), (50, 76)]` — three boundaries, the last absorbing the
remainder of 26 bases. -/
theorem determine_read_segments_76_25 :
    determine_read_segments 76 25 false 0 0 = [(0, 25), (25, 50), (50, 76)] := by
  decide

/-- C7: with `read_length = 30`, `segment_length = 25`, `trim5 = trim3 = 0`
(one segment fits), the result is `[(0, 30)]` without segment trimming and
`[(0, 25)]` with it. -/
theorem determine_read_segments_30_25 :
    determine_read_segments 30 25 false 0 0 = [(0, 30)] ∧
    determine_read_segments 30 25 true 0 0 = [(0, 25)] := by
  decide

/-- C10: when the trimmed read is shorter than one segment
(`num_segments = 0`), `determine_read_segments` does not fail: in both trim
modes it returns the single boundary `(trim5, trim5 + segment_length)`,
whose end exceeds `read_length - trim3`. -/
theorem determine_read_segments_zero_segments (rl seg t5 t3 : Int) (st : Bool)
    (h5 : 0 ≤ t5) (h3 : 0 ≤ t3) (hseg : 1 ≤ seg)
    (ht : 0 ≤ rl - t5 - t3) (hlt : rl - t5 - t3 < seg) :
    determine_read_segments rl seg st t5 t3 = [(t5, t5 + seg)] ∧
    rl - t3 < t5 + seg := by
  have hn0 : (rl - t5 - t3).fdiv seg = 0 := by
    rw [Int.fdiv_eq_ediv _ (by linarith)]
    exact Int.ediv_eq_zero_of_lt ht hlt
  constructor
  · have hp2 : (segmentLoop seg (t5 + seg) ((0 : Int) - 2).toNat).2 =
        t5 + seg := rfl
    have hcond : ¬ ((segmentLoop seg (t5 + seg) ((0 : Int) - 2).toNat).2 <
        (if st then seg * 0 else rl - t3)) := by
      rw [hp2]
      cases st with
      | false =>
        simp only [Bool.false_eq_true, if_false]
        linarith
      | true =>
        simp only [if_true, mul_zero]
        linarith
    simp only [determine_read_segments, hn0]
    rw [if_neg (by norm_num), if_neg hcond]
    rfl
  · linarith

/-- C10 witness: the zero-segments theorem applied at `read_length = 30`,
`segment_length = 40`, `segment_trim = false`, `trim5 = trim3 = 0`. -/
theorem determine_read_segments_zero_segments_witness :
    ((0 : Int) ≤ 0 ∧ (0 : Int) ≤ 0 ∧ (1 : Int) ≤ 40 ∧
      (0 : Int) ≤ 30 - 0 - 0 ∧ (30 : Int) - 0 - 0 < 40) ∧
    (determine_read_segments 30 40 false 0 0 = [(0, 0 + 40)] ∧
      (30 : Int) - 0 < 0 + 40) :=
  ⟨by decide,
   determine_read_segments_zero_segments 30 40 0 0 false (by decide)
     (by decide) (by decide) (by decide) (by decide)⟩

/-! ### Validation of the fastq inputs -/

/-- When every input file exists, the probing loop returns the list of
their probed read lengths. -/
lemma collectReadLengths_ok (files : List FastqFile) :
    ∀ mate : Nat, (∀ f ∈ files, f.isFile = true) →
      collectReadLengths mate files = .ok (files.map FastqFile.read_length) := by
  induction files with
  | nil => intro mate _; rfl
  | cons f rest ih =>
    intro mate hex
    have hf : f.isFile = true := hex f (List.mem_cons_self f rest)
    simp only [collectReadLengths, hf, if_true]
    rw [ih (mate + 1) (fun g hg => hex g (List.mem_cons_of_mem f hg))]
    rfl

/-- Deduplicating a nonempty constant list yields the one-element list of
its common value. -/
lemma dedup_of_const :
    ∀ (l : List Int) (r : Int), l ≠ [] → (∀ x ∈ l, x = r) → l.dedup = [r] := by
  intro l
  induction l with
  | nil => intro r h _; exact absurd rfl h
  | cons a l ih =>
    intro r _ hall
    have ha : a = r := hall a (List.mem_cons_self a l)
    cases l with
    | nil =>
      subst ha
      simp
    | cons b l' =>
      have hl : (b :: l').dedup = [r] :=
        ih r (by simp) (fun x hx => hall x (List.mem_cons_of_mem a hx))
      have hb : b = r := hall b (by simp)
      have hmem : a ∈ b :: l' := by
        rw [ha, ← hb]
        exact List.mem_cons_self b l'
      rw [List.dedup_cons_of_mem hmem]
      exact hl

/-- On a nonempty list of existing files sharing one probed read length,
`check_fastq_files` reduces to the two segment-length checks and otherwise
returns the common read length. -/
lemma check_fastq_files_uniform (files : List FastqFile)
    (rlen seg t5 t3 : Int) (hne : files ≠ [])
    (hex : ∀ f ∈ files, f.isFile = true)
    (hlen : ∀ f ∈ files, f.read_length = rlen) :
    check_fastq_files files seg t5 t3 =
      (if seg < MIN_SEGMENT_LENGTH then
        CheckOutcome.error (segmentTooShortMsg seg)
      else if seg > rlen - t5 - t3 then
        CheckOutcome.error (segmentTooLongMsg seg (rlen - t5 - t3))
      else
        CheckOutcome.ok rlen) := by
  cases files with
  | nil => exact absurd rfl hne
  | cons f fs =>
    have hcoll := collectReadLengths_ok (f :: fs) 0 hex
    have hfr : f.read_length = rlen := hlen f (List.mem_cons_self f fs)
    have hded : (f.read_length :: fs.map FastqFile.read_length).dedup =
        [rlen] := by
      apply dedup_of_const
      · simp
      · intro x hx
        rcases List.mem_cons.mp hx with hx | hx
        · rw [hx]
          exact hfr
        · obtain ⟨g, hg, rfl⟩ := List.mem_map.mp hx
          exact hlen g (List.mem_cons_of_mem f hg)
    simp only [check_fastq_files, hcoll, List.map_cons, hded,
      List.length_singleton]
    rw [if_neg (by norm_num), hfr]

/-- C5: on a nonempty list of existing input files sharing one probed read
length `rlen`, `check_fastq_files` raises the identifiable segment-too-short
error when `segment_length < MIN_SEGMENT_LENGTH`, raises the distinct
identifiable segment-too-long error when `segment_length > rlen - trim5 -
trim3`, and otherwise returns `rlen`. -/
theorem check_fastq_files_segment_checks (files : List FastqFile)
    (rlen seg t5 t3 : Int) (hne : files ≠ [])
    (hex : ∀ f ∈ files, f.isFile = true)
    (hlen : ∀ f ∈ files, f.read_length = rlen) :
    check_fastq_files files seg t5 t3 =
      (if seg < MIN_SEGMENT_LENGTH then
        CheckOutcome.error (segmentTooShortMsg seg)
      else if seg > rlen - t5 - t3 then
        CheckOutcome.error (segmentTooLongMsg seg (rlen - t5 - t3))
      else
        CheckOutcome.ok rlen) :=
  check_fastq_files_uniform files rlen seg t5 t3 hne hex hlen

/-- C5 witness: two existing files of read length 76 and
`segment_length = 25` pass both checks and the common read length is
returned. -/
theorem check_fastq_files_segment_checks_witness :
    (([⟨"m1.fq", true, 76⟩, ⟨"m2.fq", true, 76⟩] : List FastqFile) ≠ [] ∧
      (∀ f ∈ ([⟨"m1.fq", true, 76⟩, ⟨"m2.fq", true, 76⟩] : List FastqFile),
        f.isFile = true) ∧
      (∀ f ∈ ([⟨"m1.fq", true, 76⟩, ⟨"m2.fq", true, 76⟩] : List FastqFile),
        f.read_length = 76)) ∧
    check_fastq_files [⟨"m1.fq", true, 76⟩, ⟨"m2.fq", true, 76⟩] 25 0 0 =
      (if (25 : Int) < MIN_SEGMENT_LENGTH then
        CheckOutcome.error (segmentTooShortMsg 25)
      else if (25 : Int) > 76 - 0 - 0 then
        CheckOutcome.error (segmentTooLongMsg 25 (76 - 0 - 0))
      else
        CheckOutcome.ok 76) :=
  ⟨⟨by decide, by decide, by decide⟩,
   check_fastq_files_segment_checks [⟨"m1.fq", true, 76⟩, ⟨"m2.fq", true, 76⟩]
     76 25 0 0 (by decide) (by decide) (by decide)⟩

/-- C2 counterexample: with two valid 76-bp mates and stage exit statuses
`(segmenter, aligner, merger) = (0, 1, 0)` — the middle aligner stage failing
— `align` still returns `JOB_SUCCESS`, so its result is not success iff all
three stages exited zero, and no failing stage is identified. -/
theorem align_ignores_exit_codes_cex :
    (align [⟨"m1.fq", true, 76⟩, ⟨"m2.fq", true, 76⟩] "phred33-quals" "idx"
      "out.bam" "bowtie" 2 25 false 0 0 40 2 "-n" false ⟨0, 1, 0⟩).result =
      AlignResult.returned JOB_SUCCESS ∧
    ¬ (((align [⟨"m1.fq", true, 76⟩, ⟨"m2.fq", true, 76⟩] "phred33-quals"
        "idx" "out.bam" "bowtie" 2 25 false 0 0 40 2 "-n" false
        ⟨0, 1, 0⟩).result = AlignResult.returned JOB_SUCCESS) ↔
      ((0 : Int) = 0 ∧ (1 : Int) = 0 ∧ (0 : Int) = 0)) := by
  constructor
  · rfl
  · intro h
    have h2 := (h.mp rfl).2.1
    exact absurd h2 (by decide)

/-- C2 (amended): whenever validation passes (existing files, one common
read length, segment length within range), `align` spawns the pipeline and
returns `JOB_SUCCESS` regardless of the three stages' exit statuses; no
failing stage is ever identified. -/
theorem align_returns_success_regardless (files : List FastqFile)
    (rlen : Int) (fastq_format bowtie_index output_bam_file bowtie_bin : String)
    (num_processors segment_length : Int) (segment_trim : Bool)
    (trim5 trim3 multihits mismatches : Int) (bowtie_mode : String)
    (best_strata : Bool) (exits : StageExits)
    (hne : files ≠ []) (hex : ∀ f ∈ files, f.isFile = true)
    (hlen : ∀ f ∈ files, f.read_length = rlen)
    (hmin : MIN_SEGMENT_LENGTH ≤ segment_length)
    (hmax : segment_length ≤ rlen - trim5 - trim3) :
    (align files fastq_format bowtie_index output_bam_file bowtie_bin
      num_processors segment_length segment_trim trim5 trim3 multihits
      mismatches bowtie_mode best_strata exits).result =
      AlignResult.returned JOB_SUCCESS ∧
    (align files fastq_format bowtie_index output_bam_file bowtie_bin
      num_processors segment_length segment_trim trim5 trim3 multihits
      mismatches bowtie_mode best_strata exits).run.isSome = true := by
  have hchk : check_fastq_files files segment_length trim5 trim3 =
      CheckOutcome.ok rlen := by
    rw [check_fastq_files_uniform files rlen segment_length trim5 trim3
      hne hex hlen]
    rw [if_neg (not_lt.mpr hmin), if_neg (not_lt.mpr hmax)]
  simp [align, hchk]

/-- C2 witness: the amended theorem applied to two valid 76-bp mates with
all three stages exiting non-zero (statuses 2, 3, 4): the result is still
`JOB_SUCCESS`. -/
theorem align_returns_success_regardless_witness :
    (([⟨"m1.fq", true, 76⟩, ⟨"m2.fq", true, 76⟩] : List FastqFile) ≠ [] ∧
      (∀ f ∈ ([⟨"m1.fq", true, 76⟩, ⟨"m2.fq", true, 76⟩] : List FastqFile),
        f.isFile = true) ∧
      (∀ f ∈ ([⟨"m1.fq", true, 76⟩, ⟨"m2.fq", true, 76⟩] : List FastqFile),
        f.read_length = 76) ∧
      MIN_SEGMENT_LENGTH ≤ 25 ∧ (25 : Int) ≤ 76 - 0 - 0) ∧
    ((align [⟨"m1.fq", true, 76⟩, ⟨"m2.fq", true, 76⟩] "phred33-quals" "idx"
      "out.bam" "bowtie" 2 25 false 0 0 40 2 "-n" false ⟨2, 3, 4⟩).result =
      AlignResult.returned JOB_SUCCESS ∧
     (align [⟨"m1.fq", true, 76⟩, ⟨"m2.fq", true, 76⟩] "phred33-quals" "idx"
      "out.bam" "bowtie" 2 25 false 0 0 40 2 "-n" false ⟨2, 3, 4⟩).run.isSome =
      true) :=
  ⟨⟨by decide, by decide, by decide, by decide, by decide⟩,
   align_returns_success_regardless [⟨"m1.fq", true, 76⟩, ⟨"m2.fq", true, 76⟩]
     76 "phred33-quals" "idx" "out.bam" "bowtie" 2 25 false 0 0 40 2 "-n"
     false ⟨2, 3, 4⟩ (by decide) (by decide) (by decide) (by decide)
     (by decide)⟩

/-- C3: at two existing fastq files with unequal probed read lengths 76 and
75, `check_fastq_files` returns `False` instead of raising an identifiable
error, and `align` — which never inspects that return value — does not
abort: `False` flows into the segment arithmetic as read length 0, all
three stages are spawned (with segment boundaries `[(0, 25)]`), and
`JOB_SUCCESS` is returned. -/
theorem inconsistent_read_lengths_no_abort :
    check_fastq_files [⟨"m1.fq", true, 76⟩, ⟨"m2.fq", true, 75⟩] 25 0 0 =
      CheckOutcome.returnedFalse ∧
    determine_read_segments 0 25 false 0 0 = [(0, 25)] ∧
    (align [⟨"m1.fq", true, 76⟩, ⟨"m2.fq", true, 75⟩] "phred33-quals" "idx"
      "out.bam" "bowtie" 2 25 false 0 0 40 2 "-n" false ⟨0, 0, 0⟩).run =
      some (align_segments ["m1.fq", "m2.fq"] "out.bam" [(0, 25)]
        "phred33-quals" 40 2 2 "bowtie" "idx" "-n" false ⟨0, 0, 0⟩) ∧
    (align [⟨"m1.fq", true, 76⟩, ⟨"m2.fq", true, 75⟩] "phred33-quals" "idx"
      "out.bam" "bowtie" 2 25 false 0 0 40 2 "-n" false ⟨0, 0, 0⟩).result =
      AlignResult.returned JOB_SUCCESS := by
  refine ⟨by decide, by decide, ?_, rfl⟩
  rfl

/-- C8: (for input paths that are not themselves the literal string "--sr")
the merge stage's command line contains the explicit single-end indicator
`--sr` iff exactly one fastq file is supplied; with two files it is
absent. -/
theorem merge_args_sr_iff_single_end (fastq_files : List String)
    (output_bam_file : String) (segments : List (Int × Int))
    (fastq_format : String) (multihits mismatches num_threads : Int)
    (bowtie_bin bowtie_index bowtie_mode : String) (best_strata : Bool)
    (exits : StageExits)
    (hout : output_bam_file ≠ "--sr")
    (hpaths : ∀ p ∈ fastq_files, p ≠ "--sr") :
    "--sr" ∈ (align_segments fastq_files output_bam_file segments
      fastq_format multihits mismatches num_threads bowtie_bin bowtie_index
      bowtie_mode best_strata exits).merge_args ↔
      fastq_files.length = 1 := by
  have hhead : fastq_files.headD "" ≠ "--sr" := by
    cases fastq_files with
    | nil => decide
    | cons a l => exact hpaths a (List.mem_cons_self a l)
  have h1 : "--sr" ∉ [sys_executable, join_segments_script] := by decide
  have h3 : "--sr" ∉ ["-", fastq_files.headD "", output_bam_file] := by
    intro h
    rcases List.mem_cons.mp h with h | h
    · exact absurd h (by decide)
    · rcases List.mem_cons.mp h with h | h
      · exact hhead h.symm
      · rw [List.mem_singleton] at h
        exact hout h.symm
  simp only [align_segments]
  constructor
  · intro h
    rcases List.mem_append.mp h with h | h
    · rcases List.mem_append.mp h with h | h
      · exact absurd h h1
      · by_cases hlen : fastq_files.length = 1
        · exact hlen
        · rw [if_neg hlen] at h
          exact absurd h (List.not_mem_nil _)
    · exact absurd h h3
  · intro hlen
    rw [if_pos hlen]
    exact List.mem_append.mpr
      (Or.inl (List.mem_append.mpr (Or.inr (List.mem_singleton_self _))))

/-- C8 witness: a single-end run (one fastq file) whose merge stage command
line therefore contains `--sr`. -/
theorem merge_args_sr_iff_single_end_witness :
    (("out.bam" : String) ≠ "--sr" ∧
      (∀ p ∈ (["m1.fq"] : List String), p ≠ "--sr")) ∧
    ("--sr" ∈ (align_segments ["m1.fq"] "out.bam" [(0, 25), (25, 76)]
      "phred33-quals" 40 2 2 "bowtie" "idx" "-n" false
      ⟨0, 0, 0⟩).merge_args ↔
      (["m1.fq"] : List String).length = 1) :=
  ⟨⟨by decide, by decide⟩,
   merge_args_sr_iff_single_end ["m1.fq"] "out.bam" [(0, 25), (25, 76)]
     "phred33-quals" 40 2 2 "bowtie" "idx" "-n" false ⟨0, 0, 0⟩
     (by decide) (by decide)⟩

/-- C9: in every run of `align_segments`, the stages are awaited in the
order merger (terminal stage) first, then aligner, then segmenter, and the
exit statuses of all three stages are collected in the trace before
`align_segments` returns. -/
theorem align_segments_wait_order (fastq_files : List String)
    (output_bam_file : String) (segments : List (Int × Int))
    (fastq_format : String) (multihits mismatches num_threads : Int)
    (bowtie_bin bowtie_index bowtie_mode : String) (best_strata : Bool)
    (exits : StageExits) :
    ((align_segments fastq_files output_bam_file segments fastq_format
      multihits mismatches num_threads bowtie_bin bowtie_index bowtie_mode
      best_strata exits).events.filterMap fun e =>
        match e with
        | Event.wait s c => some (s, c)
        | Event.spawn _ => none) =
      [(Stage.merger, exits.out_exit), (Stage.aligner, exits.aln_exit),
       (Stage.segmenter, exits.seg_exit)] := rfl
